import Mathlib

/-!
Shallow embedding of the RTT measurement tool (Cyclone DDS client/analysis
scripts) and proofs about it.

Python sources embedded here:
* `RRT/rtt_types.py` — `create_payload`, `validate_payload`
* `RRT/cliente.py` — `RTTClient._send_request_and_measure`,
  `RTTClient._measure_rtt_series`
* `RRT/multi_cliente.py` — `run_single_client`, `create_client_configs`,
  `run_concurrent_clients`
* `analisar_resultados.py` — `remove_outliers`, `load_csv_data`,
  `generate_report` (anomaly section)

Machine integers do not occur (Python ints are unbounded); wall-clock and
perf-counter readings and RTT values are modelled as rationals, which embed
the IEEE doubles the scripts actually produce without committing to any
rounding behaviour the claims do not mention.
-/

namespace RTTSpec

/-- Embeds `create_payload` from `RRT/rtt_types.py`:
`return [i % 256 for i in range(size)]`. -/
def create_payload (size : Nat) : List Nat :=
  (List.range size).map (fun i => i % 256)

/-- Embeds `validate_payload` from `RRT/rtt_types.py`:
`return original == received`. -/
def validate_payload (original received : List Nat) : Bool :=
  original == received

theorem validate_payload_eq_true_iff (original received : List Nat) :
    validate_payload original received = true ↔ original = received := by
  simp [validate_payload]

/-- One DDS sample as seen by the client's reader: an `RTTResponse`
(`id`, `data`) together with its `sample_info.valid_data` flag. -/
structure Response where
  id : Nat
  data : List Nat
  valid_data : Bool
deriving DecidableEq

/-- What one iteration of the polling loop in
`RTTClient._send_request_and_measure` observes: the value of
`(time.time() - timeout_start) * 1000` at the timeout check, the batch
returned by `self.response_reader.take()`, and the `time.perf_counter()`
reading (seconds) that would be stored in `t1` if a matching sample is
found in this batch. -/
structure PollEvent where
  checkElapsedMs : ℚ
  batch : List Response
  t1 : ℚ

/-- Embeds the `for sample in samples:` scan inside
`RTTClient._send_request_and_measure`: the first sample with
`sample_info.valid_data` and `id == request_id` is selected and its `data`
returned; all other samples are passed over. -/
def firstMatch (request_id : Nat) : List Response → Option (List Nat)
  | [] => none
  | r :: rest =>
    if r.valid_data = true ∧ r.id = request_id then some r.data
    else firstMatch request_id rest

/-- Embeds the `while True:` polling loop of
`RTTClient._send_request_and_measure`. Iteration `k` reads `env k`.
The loop first checks `(time.time() - timeout_start) * 1000 > timeout_ms`
and returns `-1` on timeout; otherwise it scans the taken batch for the
first valid sample matching `request_id`, returning
`(t1 - t0) * 1e6` on a valid payload and `-1` on a corrupted one; with no
match it sleeps and polls again. `fuel` bounds the number of iterations we
unfold; `none` means the loop was still running after `fuel` iterations. -/
def probe_loop (request_id : Nat) (payload : List Nat) (timeout_ms t0 : ℚ)
    (env : Nat → PollEvent) : Nat → Nat → Option ℚ
  | 0, _ => none
  | fuel + 1, k =>
    if timeout_ms < (env k).checkElapsedMs then some (-1)
    else
      match firstMatch request_id (env k).batch with
      | some d =>
        if validate_payload payload d then some (((env k).t1 - t0) * 1000000)
        else some (-1)
      | none => probe_loop request_id payload timeout_ms t0 env fuel (k + 1)

/-- Embeds `RTTClient._send_request_and_measure` for one invocation with a
given `request_id` (the code obtains it from `_get_next_request_id`) and
`payload_size`: the payload is `create_payload payload_size`, `t0` is the
`perf_counter` reading at publish time, and the polling loop starts at
iteration `0`. -/
def send_request_and_measure (request_id payload_size : Nat)
    (timeout_ms t0 : ℚ) (env : Nat → PollEvent) (fuel : Nat) : Option ℚ :=
  probe_loop request_id (create_payload payload_size) timeout_ms t0 env fuel 0

theorem firstMatch_eq_none (request_id : Nat) (l : List Response)
    (h : ∀ r ∈ l, r.id ≠ request_id) : firstMatch request_id l = none := by
  induction l with
  | nil => rfl
  | cons r rest ih =>
    have hr : r.id ≠ request_id := h r (List.mem_cons_self r rest)
    have : ¬(r.valid_data = true ∧ r.id = request_id) := fun hc => hr hc.2
    simp only [firstMatch, if_neg this]
    exact ih fun x hx => h x (List.mem_cons_of_mem r hx)

theorem firstMatch_append_match (request_id : Nat) (stale rest : List Response)
    (good : Response) (hstale : ∀ r ∈ stale, r.id ≠ request_id)
    (hvalid : good.valid_data = true) (hid : good.id = request_id) :
    firstMatch request_id (stale ++ good :: rest) = some good.data := by
  induction stale with
  | nil =>
    simp only [List.nil_append, firstMatch]
    rw [if_pos ⟨hvalid, hid⟩]
  | cons r stale' ih =>
    have hr : r.id ≠ request_id := hstale r (List.mem_cons_self r stale')
    have : ¬(r.valid_data = true ∧ r.id = request_id) := fun hc => hr hc.2
    simp only [List.cons_append, firstMatch, if_neg this]
    exact ih fun x hx => hstale x (List.mem_cons_of_mem r hx)

/-- If for `d` consecutive iterations starting at `j` the timeout has not
fired and the batch contains no matching sample, the loop just advances
to iteration `j + d`. -/
theorem probe_loop_skip (request_id : Nat) (payload : List Nat)
    (timeout_ms t0 : ℚ) (env : Nat → PollEvent) :
    ∀ (d j fuel : Nat),
      (∀ k, j ≤ k → k < j + d →
        (env k).checkElapsedMs ≤ timeout_ms ∧
          firstMatch request_id (env k).batch = none) →
      probe_loop request_id payload timeout_ms t0 env (d + fuel) j
        = probe_loop request_id payload timeout_ms t0 env fuel (j + d) := by
  intro d
  induction d with
  | zero => intro j fuel _; simp
  | succ d ih =>
    intro j fuel h
    have hj := h j (Nat.le_refl j) (by omega)
    have hstep :
        probe_loop request_id payload timeout_ms t0 env (d + fuel + 1) j
          = probe_loop request_id payload timeout_ms t0 env (d + fuel) (j + 1) := by
      simp only [probe_loop, if_neg (not_lt.mpr hj.1), hj.2]
    have harith : d + 1 + fuel = d + fuel + 1 := by omega
    rw [harith, hstep, ih (j + 1) fuel (fun k hk1 hk2 => h k (by omega) (by omega))]
    congr 1
    omega

/-- C1: if every batch delivered before poll `m` carries only responses whose
id differs from the probe's `request_id`, and at poll `m` the matching
response (with intact payload) arrives after further stale ones in the same
batch, then `_send_request_and_measure` returns exactly
`((env m).t1 - t0) * 1e6` — the RTT stamped from the matching response's
receive time; no stale response produces a return value or a shorter RTT. -/
theorem probe_ignores_stale_responses (request_id payload_size : Nat)
    (timeout_ms t0 : ℚ) (env : Nat → PollEvent) (m fuel : Nat)
    (hfuel : m < fuel)
    (htime : ∀ k, k ≤ m → (env k).checkElapsedMs ≤ timeout_ms)
    (hstale : ∀ k, k < m → ∀ r ∈ (env k).batch, r.id ≠ request_id)
    (stale rest : List Response) (good : Response)
    (hbatch : (env m).batch = stale ++ good :: rest)
    (hstale2 : ∀ r ∈ stale, r.id ≠ request_id)
    (hvalid : good.valid_data = true) (hid : good.id = request_id)
    (hdata : good.data = create_payload payload_size) :
    send_request_and_measure request_id payload_size timeout_ms t0 env fuel
      = some (((env m).t1 - t0) * 1000000) := by
  unfold send_request_and_measure
  obtain ⟨f, rfl⟩ : ∃ f, fuel = m + (f + 1) := ⟨fuel - m - 1, by omega⟩
  have hskip : ∀ k, 0 ≤ k → k < 0 + m →
      (env k).checkElapsedMs ≤ timeout_ms ∧
        firstMatch request_id (env k).batch = none := by
    intro k _ hk
    exact ⟨htime k (by omega), firstMatch_eq_none _ _ (hstale k (by omega))⟩
  rw [probe_loop_skip request_id _ timeout_ms t0 env m 0 (f + 1) hskip]
  simp only [Nat.zero_add, probe_loop, if_neg (not_lt.mpr (htime m le_rfl))]
  rw [hbatch, firstMatch_append_match _ _ _ _ hstale2 hvalid hid, hdata]
  simp [validate_payload]

theorem probe_ignores_stale_responses_witness :
    send_request_and_measure 2 3 5000 10
      (fun k => if k = 0 then ⟨0, [⟨1, [0, 1, 2], true⟩], 7⟩
                else ⟨1, [⟨2, [0, 1, 2], true⟩], 12⟩) 2
      = some 2000000 := by
  have h := probe_ignores_stale_responses 2 3 5000 10
    (fun k => if k = 0 then ⟨0, [⟨1, [0, 1, 2], true⟩], 7⟩
              else ⟨1, [⟨2, [0, 1, 2], true⟩], 12⟩)
    1 2 (by omega) (by decide) (by decide)
    [] [] ⟨2, [0, 1, 2], true⟩ (by rfl) (by decide) (by rfl) (by rfl)
    (by decide)
  rw [h]
  norm_num

/-- C2: if no response with the matching id is ever delivered, the polling
loop of `_send_request_and_measure` terminates and returns `-1`: at the
first poll whose elapsed wall-clock reading exceeds `timeout_ms` — which
exists as soon as some poll exceeds it — the probe returns `some (-1)`
with fuel `k + 1`, and provided consecutive elapsed readings grow by at
most `delta` (one poll interval) from a start within the timeout, the
elapsed time at that returning poll is at most `timeout_ms + delta`. -/
theorem probe_times_out (request_id payload_size : Nat)
    (timeout_ms t0 delta : ℚ) (env : Nat → PollEvent) (K : Nat)
    (hnomatch : ∀ k, ∀ r ∈ (env k).batch, r.id ≠ request_id)
    (hstart : (env 0).checkElapsedMs ≤ timeout_ms)
    (hstep : ∀ k, (env (k + 1)).checkElapsedMs ≤ (env k).checkElapsedMs + delta)
    (hexceed : timeout_ms < (env K).checkElapsedMs) :
    ∃ k, k ≤ K ∧
      send_request_and_measure request_id payload_size timeout_ms t0 env (k + 1)
        = some (-1) ∧
      (env k).checkElapsedMs ≤ timeout_ms + delta := by
  have hP : ∃ k, timeout_ms < (env k).checkElapsedMs := ⟨K, hexceed⟩
  have hPk : timeout_ms < (env (Nat.find hP)).checkElapsedMs := Nat.find_spec hP
  have hkK : Nat.find hP ≤ K := Nat.find_min' hP hexceed
  have hknz : Nat.find hP ≠ 0 := by
    intro h0
    rw [h0] at hPk
    exact absurd hPk (not_lt.mpr hstart)
  obtain ⟨j, hj⟩ : ∃ j, Nat.find hP = j + 1 := ⟨Nat.find hP - 1, by omega⟩
  have hPj : ¬ timeout_ms < (env j).checkElapsedMs := Nat.find_min hP (by omega)
  refine ⟨Nat.find hP, hkK, ?_, ?_⟩
  · unfold send_request_and_measure
    have hskip : ∀ i, 0 ≤ i → i < 0 + Nat.find hP →
        (env i).checkElapsedMs ≤ timeout_ms ∧
          firstMatch request_id (env i).batch = none := by
      intro i _ hi
      exact ⟨not_lt.mp (Nat.find_min hP (by omega)),
        firstMatch_eq_none _ _ (hnomatch i)⟩
    rw [probe_loop_skip request_id _ timeout_ms t0 env (Nat.find hP) 0 1 hskip]
    simp only [Nat.zero_add, probe_loop, if_pos hPk]
  · have h1 : (env (Nat.find hP)).checkElapsedMs
        ≤ (env j).checkElapsedMs + delta := by rw [hj]; exact hstep j
    have h2 : (env j).checkElapsedMs ≤ timeout_ms := not_lt.mp hPj
    linarith

theorem probe_times_out_witness :
    ∃ k, k ≤ 4 ∧
      send_request_and_measure 1 0 10 0
        (fun k => ⟨3 * (k : ℚ), [], 0⟩) (k + 1) = some (-1) ∧
      ((fun k => (⟨3 * (k : ℚ), [], 0⟩ : PollEvent)) k).checkElapsedMs
        ≤ 10 + 3 := by
  exact probe_times_out 1 0 10 0 3 (fun k => ⟨3 * (k : ℚ), [], 0⟩) 4
    (by intro k r hr; simp at hr)
    (by norm_num)
    (by
      intro k
      show (3 * ((k + 1 : ℕ) : ℚ)) ≤ 3 * (k : ℚ) + 3
      push_cast
      linarith)
    (by norm_num)

/-- C3: `create_payload s` has exactly `s` entries with entry `i` equal to
`i mod 256`; a payload validates against an identical copy; and changing any
single byte to a different value makes validation fail. -/
theorem payload_codec_correct (s : Nat) :
    (create_payload s).length = s ∧
    (∀ i, i < s → (create_payload s)[i]? = some (i % 256)) ∧
    validate_payload (create_payload s) (create_payload s) = true ∧
    (∀ i v, i < s → v ≠ i % 256 →
      validate_payload (create_payload s) ((create_payload s).set i v) = false) := by
  have hlen : (create_payload s).length = s := by simp [create_payload]
  have hget : ∀ i, i < s → (create_payload s)[i]? = some (i % 256) := by
    intro i hi
    simp [create_payload, List.getElem?_map, List.getElem?_range hi]
  refine ⟨hlen, hget, by simp [validate_payload], ?_⟩
  intro i v hi hv
  simp only [validate_payload, beq_eq_false_iff_ne, ne_eq]
  intro heq
  have h1 : ((create_payload s).set i v)[i]? = some v := by
    apply List.getElem?_set_eq_of_lt
    omega
  have h2 := hget i hi
  rw [heq, h1] at h2
  exact hv (Option.some_injective _ h2)

theorem payload_codec_correct_witness :
    (create_payload 5).length = 5 ∧
    (create_payload 5)[2]? = some 2 ∧
    validate_payload (create_payload 5) (create_payload 5) = true ∧
    validate_payload (create_payload 5) ((create_payload 5).set 2 7) = false :=
  ⟨(payload_codec_correct 5).1,
   (payload_codec_correct 5).2.1 2 (by omega),
   (payload_codec_correct 5).2.2.1,
   (payload_codec_correct 5).2.2.2 2 7 (by omega) (by omega)⟩

/-- One row of the per-client CSV produced by `RTTClient._measure_rtt_series`:
`writer.writerow([payload_size, i + 1, rtt])`. -/
structure CsvRow where
  size : Nat
  iteration : Nat
  rtt : ℚ
deriving DecidableEq

/-- Embeds the measurement loop of `RTTClient._measure_rtt_series`: the state
`(rtts, csv rows)` after the first `count` attempts, where `probe i` is what
`_send_request_and_measure` returned for attempt `i` (0-based). An attempt
appends `rtt` to `rtts` and a `[payload_size, i + 1, rtt]` row to the CSV
exactly when `rtt > 0`. -/
def measure_rtt_series (payload_size : Nat) (probe : Nat → ℚ) :
    Nat → List ℚ × List CsvRow
  | 0 => ([], [])
  | count + 1 =>
    let p := measure_rtt_series payload_size probe count
    let rtt := probe count
    if 0 < rtt then (p.1 ++ [rtt], p.2 ++ [⟨payload_size, count + 1, rtt⟩])
    else p

theorem measure_csv_closed_form (payload_size count : Nat) (probe : Nat → ℚ) :
    (measure_rtt_series payload_size probe count).2
      = (List.range count).filterMap
          (fun i => if 0 < probe i then some ⟨payload_size, i + 1, probe i⟩
                    else none) := by
  induction count with
  | zero => rfl
  | succ n ih =>
    rw [List.range_succ, List.filterMap_append, ← ih]
    by_cases h : 0 < probe n
    · simp [measure_rtt_series, h]
    · simp [measure_rtt_series, h]

theorem measure_csv_iterations (payload_size count : Nat) (probe : Nat → ℚ) :
    (measure_rtt_series payload_size probe count).2.map (fun r => r.iteration)
      = ((List.range count).filter (fun i => decide (0 < probe i))).map
          (fun i => i + 1) := by
  induction count with
  | zero => rfl
  | succ n ih =>
    rw [List.range_succ, List.filter_append, List.map_append, ← ih]
    by_cases h : 0 < probe n
    · simp [measure_rtt_series, h]
    · simp [measure_rtt_series, h]

/-- C4: during a measurement series, a CSV row is produced for attempt `i`
iff the probe result for that attempt was strictly positive, in which case
the row is `[payload_size, i + 1, rtt]`; the CSV after `count` attempts is
exactly the in-order filter-map of the attempt results, so each row is
appended right after its attempt and timed-out or corrupted attempts
(result ≤ 0) are never recorded. -/
theorem csv_row_iff_positive_rtt (payload_size count : Nat) (probe : Nat → ℚ) :
    ((measure_rtt_series payload_size probe count).2
      = (List.range count).filterMap
          (fun i => if 0 < probe i then some ⟨payload_size, i + 1, probe i⟩
                    else none)) ∧
    ∀ r, r ∈ (measure_rtt_series payload_size probe count).2 ↔
      ∃ i, i < count ∧ 0 < probe i ∧ r = ⟨payload_size, i + 1, probe i⟩ := by
  refine ⟨measure_csv_closed_form payload_size count probe, ?_⟩
  intro r
  rw [measure_csv_closed_form payload_size count probe]
  simp only [List.mem_filterMap, List.mem_range]
  constructor
  · rintro ⟨i, hi, hfi⟩
    by_cases h : 0 < probe i
    · rw [if_pos h] at hfi
      exact ⟨i, hi, h, (Option.some_injective _ hfi).symm⟩
    · rw [if_neg h] at hfi
      cases hfi
  · rintro ⟨i, hi, h, rfl⟩
    exact ⟨i, hi, by rw [if_pos h]⟩

theorem csv_row_iff_positive_rtt_witness :
    (⟨64, 2, 5⟩ : CsvRow)
      ∈ (measure_rtt_series 64 (fun i => if i = 0 then (-1 : ℚ) else 5) 2).2 :=
  ((csv_row_iff_positive_rtt 64 2 (fun i => if i = 0 then (-1 : ℚ) else 5)).2
    ⟨64, 2, 5⟩).mpr ⟨1, by omega, by norm_num, by norm_num⟩

/-- C5 counterexample: with 2 attempts where attempt 1 times out (probe
result -1) and attempt 2 succeeds, the recorded sequence indices are `[2]` —
one successful measurement (N = 1) but the recorded indices are not `1..N`,
because the code records the 1-based attempt number, leaving a gap. -/
theorem seq_index_gap_counterexample :
    ((measure_rtt_series 64 (fun i => if i = 0 then (-1 : ℚ) else 5) 2).2.map
        (fun r => r.iteration) = [2]) ∧
    (measure_rtt_series 64 (fun i => if i = 0 then (-1 : ℚ) else 5) 2).2.length
      = 1 ∧
    ([2] : List Nat) ≠ [1] := by
  refine ⟨?_, ?_, by decide⟩ <;> norm_num [measure_rtt_series]

/-- C5 (amended): the recorded sequence indices are exactly the 1-based
attempt numbers of the attempts whose probe result was positive, in attempt
order; hence they are strictly increasing, and when every attempt of the
series succeeds they are exactly `1..count` — but a failed attempt leaves a
gap rather than renumbering. -/
theorem seq_index_attempt_numbers (payload_size count : Nat) (probe : Nat → ℚ) :
    ((measure_rtt_series payload_size probe count).2.map (fun r => r.iteration)
      = ((List.range count).filter (fun i => decide (0 < probe i))).map
          (fun i => i + 1)) ∧
    ((measure_rtt_series payload_size probe count).2.map
        (fun r => r.iteration)).Pairwise (· < ·) ∧
    ((∀ i, i < count → 0 < probe i) →
      (measure_rtt_series payload_size probe count).2.map (fun r => r.iteration)
        = List.range' 1 count) := by
  refine ⟨measure_csv_iterations payload_size count probe, ?_, ?_⟩
  · rw [measure_csv_iterations payload_size count probe]
    rw [List.pairwise_map]
    have hfil : ((List.range count).filter
        (fun i => decide (0 < probe i))).Pairwise (· < ·) :=
      (List.pairwise_lt_range count).sublist (List.filter_sublist _)
    exact hfil.imp (by omega)
  · intro hall
    rw [measure_csv_iterations payload_size count probe]
    have : (List.range count).filter (fun i => decide (0 < probe i))
        = List.range count := by
      rw [List.filter_eq_self]
      intro a ha
      simp only [decide_eq_true_eq]
      exact hall a (List.mem_range.mp ha)
    rw [this, List.range'_eq_map_range]
    exact List.map_congr_left (fun a _ => by omega)

theorem seq_index_attempt_numbers_witness :
    (measure_rtt_series 64 (fun _ => (5 : ℚ)) 3).2.map (fun r => r.iteration)
      = List.range' 1 3 :=
  (seq_index_attempt_numbers 64 3 (fun _ => (5 : ℚ))).2.2
    (fun i _ => by norm_num)

/-- Linear interpolation at fractional position `h` into a list: value
`s[⌊h⌋] + (h - ⌊h⌋) * (s[⌊h⌋ + 1] - s[⌊h⌋])`, clamping to `s[⌊h⌋]` when
position `⌊h⌋ + 1` is past the end. This is what
`pandas.Series.quantile(q)` (default `interpolation='linear'`) computes on
the sorted values at position `h = q * (n - 1)`. -/
def interpAt (s : List ℚ) (h : ℚ) : ℚ :=
  ((s[(⌊h⌋).toNat]?).map (fun a =>
    ((s[(⌊h⌋).toNat + 1]?).map (fun b => a + (h - ⌊h⌋) * (b - a))).getD a)).getD 0

/-- Embeds `df[column].quantile(q)` from `remove_outliers` in
`analisar_resultados.py`: sort the column values and interpolate linearly at
position `q * (n - 1)`. -/
def quantile (xs : List ℚ) (q : ℚ) : ℚ :=
  interpAt (xs.insertionSort (· ≤ ·)) (q * ((xs.length : ℚ) - 1))

/-- The `lower_bound = Q1 - 1.5 * IQR` of `remove_outliers`. -/
def iqr_lower (xs : List ℚ) : ℚ :=
  quantile xs (1/4) - 3/2 * (quantile xs (3/4) - quantile xs (1/4))

/-- The `upper_bound = Q3 + 1.5 * IQR` of `remove_outliers`. -/
def iqr_upper (xs : List ℚ) : ℚ :=
  quantile xs (3/4) + 3/2 * (quantile xs (3/4) - quantile xs (1/4))

/-- Embeds `remove_outliers` from `analisar_resultados.py` (column
`rtt_us`): keep the rows whose `rtt_us` lies within
`[Q1 - 1.5*IQR, Q3 + 1.5*IQR]`. -/
def remove_outliers (df : List CsvRow) : List CsvRow :=
  df.filter (fun r =>
    decide (iqr_lower (df.map (fun r => r.rtt)) ≤ r.rtt) &&
    decide (r.rtt ≤ iqr_upper (df.map (fun r => r.rtt))))

theorem sorted_get_mono {s : List ℚ} (hs : s.Sorted (· ≤ ·))
    (i j : Fin s.length) (hij : (i : Nat) ≤ (j : Nat)) : s.get i ≤ s.get j :=
  hs.rel_get_of_le hij

theorem interpAt_natCast (s : List ℚ) (m : Nat) (hm : m < s.length) :
    interpAt s (m : ℚ) = s.get ⟨m, hm⟩ := by
  unfold interpAt
  have hfl : ⌊(m : ℚ)⌋ = (m : ℤ) := Int.floor_natCast m
  rw [hfl]
  simp only [Int.toNat_natCast]
  rw [List.getElem?_eq_getElem hm]
  cases h2 : s[m + 1]? with
  | none => simp [List.get_eq_getElem]
  | some b =>
    simp only [Option.map_some', Option.getD_some, List.get_eq_getElem]
    push_cast
    ring

theorem interpAt_ge_floor {s : List ℚ} (hs : s.Sorted (· ≤ ·)) (h : ℚ)
    (hi : (⌊h⌋).toNat < s.length) :
    s.get ⟨(⌊h⌋).toNat, hi⟩ ≤ interpAt s h := by
  unfold interpAt
  rw [List.getElem?_eq_getElem hi]
  cases h2 : s[(⌊h⌋).toNat + 1]? with
  | none => simp [List.get_eq_getElem]
  | some b =>
    simp only [List.get_eq_getElem]
    have hib : (⌊h⌋).toNat + 1 < s.length := by
      by_contra hc
      rw [List.getElem?_eq_none (by omega)] at h2
      cases h2
    have hab : s.get ⟨(⌊h⌋).toNat, hi⟩ ≤ b := by
      have hmono := sorted_get_mono hs ⟨(⌊h⌋).toNat, hi⟩
        ⟨(⌊h⌋).toNat + 1, hib⟩ (Nat.le_succ _)
      rw [List.getElem?_eq_getElem hib] at h2
      have hb : s.get ⟨(⌊h⌋).toNat + 1, hib⟩ = b := by
        simpa [List.get_eq_getElem] using Option.some_injective _ h2
      rw [hb] at hmono
      exact hmono
    have hfr : (0 : ℚ) ≤ h - ⌊h⌋ := by
      have := Int.floor_le h
      linarith
    simp only [List.get_eq_getElem] at hab
    simp only [Option.map_some', Option.getD_some]
    nlinarith

theorem interpAt_le_succ {s : List ℚ} (hs : s.Sorted (· ≤ ·)) (h : ℚ)
    (hib : (⌊h⌋).toNat + 1 < s.length) :
    interpAt s h ≤ s.get ⟨(⌊h⌋).toNat + 1, hib⟩ := by
  unfold interpAt
  have hi : (⌊h⌋).toNat < s.length := by omega
  rw [List.getElem?_eq_getElem hi, List.getElem?_eq_getElem hib]
  have hab : s.get ⟨(⌊h⌋).toNat, hi⟩ ≤ s.get ⟨(⌊h⌋).toNat + 1, hib⟩ :=
    sorted_get_mono hs ⟨(⌊h⌋).toNat, hi⟩ ⟨(⌊h⌋).toNat + 1, hib⟩ (Nat.le_succ _)
  simp only [List.get_eq_getElem] at hab ⊢
  have hfr : h - ⌊h⌋ < 1 := by
    have := Int.lt_floor_add_one h
    linarith
  simp only [Option.map_some', Option.getD_some]
  nlinarith

/-- Linear interpolation into a sorted list is monotone in the position, as
long as the position stays within `[0, n - 1]`. -/
theorem interpAt_mono {s : List ℚ} (hs : s.Sorted (· ≤ ·)) {h h2 : ℚ}
    (h0 : 0 ≤ h) (hh : h ≤ h2) (hub : h2 ≤ (s.length : ℚ) - 1) :
    interpAt s h ≤ interpAt s h2 := by
  have hn1 : (1 : ℚ) ≤ (s.length : ℚ) := by linarith
  have hn : 1 ≤ s.length := by exact_mod_cast hn1
  have hfl0 : 0 ≤ ⌊h⌋ := Int.floor_nonneg.mpr h0
  have hfl02 : 0 ≤ ⌊h2⌋ := Int.floor_nonneg.mpr (le_trans h0 hh)
  have hflle : ⌊h⌋ ≤ ⌊h2⌋ := Int.floor_le_floor hh
  have hi2lt : (⌊h2⌋).toNat < s.length := by
    have hfl2 : (⌊h2⌋ : ℚ) ≤ (s.length : ℚ) - 1 := le_trans (Int.floor_le h2) hub
    have : (⌊h2⌋ : ℚ) < (s.length : ℚ) := by linarith
    have hzz : ⌊h2⌋ < (s.length : ℤ) := by exact_mod_cast this
    omega
  have hilt : (⌊h⌋).toNat < s.length := by omega
  by_cases hcase : ⌊h⌋ = ⌊h2⌋
  · unfold interpAt
    rw [hcase]
    rw [List.getElem?_eq_getElem hi2lt]
    cases hb : s[(⌊h2⌋).toNat + 1]? with
    | none => simp
    | some b =>
      have hib : (⌊h2⌋).toNat + 1 < s.length := by
        by_contra hc
        rw [List.getElem?_eq_none (by omega)] at hb
        cases hb
      have hab : s.get ⟨(⌊h2⌋).toNat, hi2lt⟩ ≤ b := by
        have hmono := sorted_get_mono hs ⟨(⌊h2⌋).toNat, hi2lt⟩
          ⟨(⌊h2⌋).toNat + 1, hib⟩ (Nat.le_succ _)
        rw [List.getElem?_eq_getElem hib] at hb
        have hbeq : s.get ⟨(⌊h2⌋).toNat + 1, hib⟩ = b := by
          simpa [List.get_eq_getElem] using Option.some_injective _ hb
        rw [hbeq] at hmono
        exact hmono
      simp only [List.get_eq_getElem] at hab
      simp only [Option.map_some', Option.getD_some]
      nlinarith [hab, hh]
  · have hlt : ⌊h⌋ < ⌊h2⌋ := lt_of_le_of_ne hflle hcase
    have hib : (⌊h⌋).toNat + 1 < s.length := by omega
    have hstep1 : interpAt s h ≤ s.get ⟨(⌊h⌋).toNat + 1, hib⟩ :=
      interpAt_le_succ hs h hib
    have hstep2 : s.get ⟨(⌊h⌋).toNat + 1, hib⟩ ≤ s.get ⟨(⌊h2⌋).toNat, hi2lt⟩ :=
      sorted_get_mono hs _ _ (by simp; omega)
    have hstep3 : s.get ⟨(⌊h2⌋).toNat, hi2lt⟩ ≤ interpAt s h2 :=
      interpAt_ge_floor hs h2 hi2lt
    linarith

theorem quantile_q1_le_q3 (xs : List ℚ) (hne : xs ≠ []) :
    quantile xs (1/4) ≤ quantile xs (3/4) := by
  unfold quantile
  have hs := List.sorted_insertionSort (· ≤ ·) xs
  have hn : 1 ≤ xs.length := List.length_pos.mpr hne
  have hn1 : (1 : ℚ) ≤ (xs.length : ℚ) := by exact_mod_cast hn
  have hlen : (xs.insertionSort (· ≤ ·)).length = xs.length :=
    (List.perm_insertionSort (· ≤ ·) xs).length_eq
  apply interpAt_mono hs
  · nlinarith
  · nlinarith
  · rw [hlen]
    nlinarith

theorem interpAt_pair (a b h : ℚ) (h0 : ⌊h⌋ = 0) :
    interpAt [a, b] h = a + h * (b - a) := by
  unfold interpAt
  rw [h0]
  norm_num

/-- In a nonempty list there is always a value inside the IQR acceptance
bounds `[Q1 - 1.5*IQR, Q3 + 1.5*IQR]` computed from that list. -/
theorem exists_value_within_iqr_bounds (xs : List ℚ) (hne : xs ≠ []) :
    ∃ v ∈ xs, iqr_lower xs ≤ v ∧ v ≤ iqr_upper xs := by
  have hs := List.sorted_insertionSort (· ≤ ·) xs
  have hperm : (xs.insertionSort (· ≤ ·)).Perm xs :=
    List.perm_insertionSort (· ≤ ·) xs
  have hlen : (xs.insertionSort (· ≤ ·)).length = xs.length := hperm.length_eq
  have hn : 1 ≤ xs.length := List.length_pos.mpr hne
  have hn1 : (1 : ℚ) ≤ (xs.length : ℚ) := by exact_mod_cast hn
  have hq13 := quantile_q1_le_q3 xs hne
  by_cases hk1 : xs.length = 2
  · obtain ⟨a, b, hab⟩ := List.length_eq_two.mp (hlen.trans hk1)
    have hsort : a ≤ b := by
      rw [hab] at hs
      exact (List.sorted_cons.mp hs).1 b (List.mem_singleton.mpr rfl)
    have hq1 : quantile xs (1/4) = a + (1/4) * (b - a) := by
      have harg : quantile xs (1/4) = interpAt [a, b] (1/4) := by
        unfold quantile
        rw [hab, hk1]
        norm_num
      rw [harg, interpAt_pair a b (1/4) (by norm_num [Int.floor_eq_zero_iff])]
    have hq3 : quantile xs (3/4) = a + (3/4) * (b - a) := by
      have harg : quantile xs (3/4) = interpAt [a, b] (3/4) := by
        unfold quantile
        rw [hab, hk1]
        norm_num
      rw [harg, interpAt_pair a b (3/4) (by norm_num [Int.floor_eq_zero_iff])]
    refine ⟨a, ?_, ?_, ?_⟩
    · exact hperm.mem_iff.mp (by rw [hab]; exact List.mem_cons_self a [b])
    · unfold iqr_lower
      rw [hq1, hq3]
      linarith
    · unfold iqr_upper
      rw [hq1, hq3]
      linarith
  · set s := xs.insertionSort (· ≤ ·) with hsdef
    set h3 : ℚ := (3/4) * ((xs.length : ℚ) - 1) with h3def
    have h30 : 0 ≤ h3 := by rw [h3def]; nlinarith
    have h3ub : h3 ≤ (xs.length : ℚ) - 1 := by rw [h3def]; nlinarith
    have hfl3 : 0 ≤ ⌊h3⌋ := Int.floor_nonneg.mpr h30
    have hmlt : (⌊h3⌋).toNat < s.length := by
      have hle : (⌊h3⌋ : ℚ) ≤ (xs.length : ℚ) - 1 :=
        le_trans (Int.floor_le h3) h3ub
      have : (⌊h3⌋ : ℚ) < (xs.length : ℚ) := by linarith
      have hz : ⌊h3⌋ < (xs.length : ℤ) := by exact_mod_cast this
      rw [hlen]
      omega
    have hmcast : ((⌊h3⌋).toNat : ℚ) = (⌊h3⌋ : ℚ) := by
      have hz := Int.toNat_of_nonneg hfl3
      exact_mod_cast hz
    have hh1m : (1/4) * ((xs.length : ℚ) - 1) ≤ ((⌊h3⌋).toNat : ℚ) := by
      rcases Nat.lt_or_ge xs.length 2 with hsmall | hbig
      · have hxs1 : xs.length = 1 := by omega
        rw [hxs1]
        norm_num
      · have hk2 : 3 ≤ xs.length := by omega
        have hk2q : (3 : ℚ) ≤ (xs.length : ℚ) := by exact_mod_cast hk2
        have hgt : h3 - 1 < (⌊h3⌋ : ℚ) := by
          have := Int.lt_floor_add_one h3
          linarith
        rw [hmcast]
        rw [h3def] at hgt
        nlinarith
    have hq1v : quantile xs (1/4) ≤ s.get ⟨(⌊h3⌋).toNat, hmlt⟩ := by
      rw [← interpAt_natCast s (⌊h3⌋).toNat hmlt]
      unfold quantile
      apply interpAt_mono hs
      · nlinarith
      · exact hh1m
      · rw [hlen, hmcast]
        exact le_trans (Int.floor_le h3) h3ub
    have hvq3 : s.get ⟨(⌊h3⌋).toNat, hmlt⟩ ≤ quantile xs (3/4) := by
      rw [← interpAt_natCast s (⌊h3⌋).toNat hmlt]
      unfold quantile
      apply interpAt_mono hs
      · positivity
      · rw [hmcast]
        exact Int.floor_le h3
      · rw [hlen]
        exact h3ub
    refine ⟨s.get ⟨(⌊h3⌋).toNat, hmlt⟩, hperm.mem_iff.mp (s.get_mem _ hmlt), ?_, ?_⟩
    · unfold iqr_lower
      linarith
    · unfold iqr_upper
      linarith

/-- Evaluation rule for `quantile` on an already-sorted list when the
interpolation position falls between indices `m` and `m + 1`. -/
theorem quantile_eval (xs : List ℚ) (q h : ℚ) (m : Nat) (a b : ℚ)
    (hsort : xs.Sorted (· ≤ ·))
    (hq : q * ((xs.length : ℚ) - 1) = h)
    (hm : ⌊h⌋ = (m : ℤ))
    (ha : xs[m]? = some a) (hb : xs[m + 1]? = some b) :
    quantile xs q = a + (h - (m : ℚ)) * (b - a) := by
  unfold quantile interpAt
  rw [List.Sorted.insertionSort_eq hsort, hq, hm]
  simp only [Int.toNat_natCast, ha, hb, Option.map_some', Option.getD_some]
  norm_num

/-- Evaluation rule for `quantile` on an already-sorted list when the
interpolation position lands on the last index. -/
theorem quantile_eval_last (xs : List ℚ) (q h : ℚ) (m : Nat) (a : ℚ)
    (hsort : xs.Sorted (· ≤ ·))
    (hq : q * ((xs.length : ℚ) - 1) = h)
    (hm : ⌊h⌋ = (m : ℤ))
    (ha : xs[m]? = some a) (hb : xs[m + 1]? = none) :
    quantile xs q = a := by
  unfold quantile interpAt
  rw [List.Sorted.insertionSort_eq hsort, hq, hm]
  simp only [Int.toNat_natCast, ha, hb, Option.map_some', Option.map_none',
    Option.getD_some, Option.getD_none]

/-- C10: `remove_outliers` only removes rows — its output is a sublist of
the input (nothing added, modified or reordered) — and on non-empty input
the output is non-empty; moreover any value between Q1 and Q3 always lies
within the acceptance bounds `[Q1 - 1.5*IQR, Q3 + 1.5*IQR]`. -/
theorem remove_outliers_sublist_nonempty (df : List CsvRow) (hne : df ≠ []) :
    (remove_outliers df).Sublist df ∧
    remove_outliers df ≠ [] ∧
    (∀ v : ℚ, quantile (df.map (fun r => r.rtt)) (1/4) ≤ v →
      v ≤ quantile (df.map (fun r => r.rtt)) (3/4) →
      iqr_lower (df.map (fun r => r.rtt)) ≤ v ∧
        v ≤ iqr_upper (df.map (fun r => r.rtt))) := by
  have hmapne : df.map (fun r => r.rtt) ≠ [] := by
    intro hmap
    exact hne (List.map_eq_nil_iff.mp hmap)
  obtain ⟨v, hvmem, hvlb, hvub⟩ := exists_value_within_iqr_bounds _ hmapne
  obtain ⟨r, hrmem, hrv⟩ := List.mem_map.mp hvmem
  have hq13 := quantile_q1_le_q3 _ hmapne
  refine ⟨List.filter_sublist _, ?_, ?_⟩
  · have hr : r ∈ remove_outliers df := by
      unfold remove_outliers
      rw [List.mem_filter]
      refine ⟨hrmem, ?_⟩
      rw [hrv]
      simp [hvlb, hvub]
    exact List.ne_nil_of_mem hr
  · intro w hq1 hq3
    unfold iqr_lower iqr_upper
    constructor <;> linarith

theorem remove_outliers_sublist_nonempty_witness :
    (remove_outliers [⟨64, 1, 5⟩, ⟨64, 2, 7⟩]).Sublist
      [(⟨64, 1, 5⟩ : CsvRow), ⟨64, 2, 7⟩] ∧
    remove_outliers [⟨64, 1, 5⟩, ⟨64, 2, 7⟩] ≠ ([] : List CsvRow) :=
  ⟨(remove_outliers_sublist_nonempty [⟨64, 1, 5⟩, ⟨64, 2, 7⟩] (by simp)).1,
   (remove_outliers_sublist_nonempty [⟨64, 1, 5⟩, ⟨64, 2, 7⟩] (by simp)).2.1⟩

/-- Concrete series for the idempotence counterexample: 14 samples of one
payload size whose rtt column is
`[1, 1, 1, 11, 11, 11, 11, 11, 11, 11, 41, 41, 41, 10001]`. -/
def c7df : List CsvRow :=
  [⟨64, 1, 1⟩, ⟨64, 2, 1⟩, ⟨64, 3, 1⟩, ⟨64, 4, 11⟩, ⟨64, 5, 11⟩, ⟨64, 6, 11⟩,
   ⟨64, 7, 11⟩, ⟨64, 8, 11⟩, ⟨64, 9, 11⟩, ⟨64, 10, 11⟩, ⟨64, 11, 41⟩,
   ⟨64, 12, 41⟩, ⟨64, 13, 41⟩, ⟨64, 14, 10001⟩]

theorem c7_pass1 : remove_outliers c7df =
    [⟨64, 1, 1⟩, ⟨64, 2, 1⟩, ⟨64, 3, 1⟩, ⟨64, 4, 11⟩, ⟨64, 5, 11⟩, ⟨64, 6, 11⟩,
     ⟨64, 7, 11⟩, ⟨64, 8, 11⟩, ⟨64, 9, 11⟩, ⟨64, 10, 11⟩, ⟨64, 11, 41⟩,
     ⟨64, 12, 41⟩, ⟨64, 13, 41⟩] := by
  have hmap : c7df.map (fun r => r.rtt)
      = [1, 1, 1, 11, 11, 11, 11, 11, 11, 11, 41, 41, 41, 10001] := rfl
  have hq1 : quantile (c7df.map (fun r => r.rtt)) (1/4) = 11 := by
    rw [hmap]
    rw [quantile_eval _ (1/4) (13/4) 3 11 11 (by decide) (by norm_num)
      (by norm_num) rfl rfl]
    norm_num
  have hq3 : quantile (c7df.map (fun r => r.rtt)) (3/4) = 67/2 := by
    rw [hmap]
    rw [quantile_eval _ (3/4) (39/4) 9 11 41 (by decide) (by norm_num)
      (by norm_num) rfl rfl]
    norm_num
  have hlb : iqr_lower (c7df.map (fun r => r.rtt)) = -91/4 := by
    rw [iqr_lower, hq1, hq3]; norm_num
  have hub : iqr_upper (c7df.map (fun r => r.rtt)) = 269/4 := by
    rw [iqr_upper, hq1, hq3]; norm_num
  rw [remove_outliers, hlb, hub]
  norm_num [c7df, List.filter]

theorem c7_pass2 : remove_outliers
    [⟨64, 1, 1⟩, ⟨64, 2, 1⟩, ⟨64, 3, 1⟩, ⟨64, 4, 11⟩, ⟨64, 5, 11⟩, ⟨64, 6, 11⟩,
     ⟨64, 7, 11⟩, ⟨64, 8, 11⟩, ⟨64, 9, 11⟩, ⟨64, 10, 11⟩, ⟨64, 11, 41⟩,
     ⟨64, 12, 41⟩, ⟨64, 13, 41⟩] =
    [⟨64, 4, 11⟩, ⟨64, 5, 11⟩, ⟨64, 6, 11⟩, ⟨64, 7, 11⟩, ⟨64, 8, 11⟩,
     ⟨64, 9, 11⟩, ⟨64, 10, 11⟩] := by
  set l13 : List CsvRow :=
    [⟨64, 1, 1⟩, ⟨64, 2, 1⟩, ⟨64, 3, 1⟩, ⟨64, 4, 11⟩, ⟨64, 5, 11⟩, ⟨64, 6, 11⟩,
     ⟨64, 7, 11⟩, ⟨64, 8, 11⟩, ⟨64, 9, 11⟩, ⟨64, 10, 11⟩, ⟨64, 11, 41⟩,
     ⟨64, 12, 41⟩, ⟨64, 13, 41⟩] with hl13
  have hmap : l13.map (fun r => r.rtt)
      = [1, 1, 1, 11, 11, 11, 11, 11, 11, 11, 41, 41, 41] := rfl
  have hq1 : quantile (l13.map (fun r => r.rtt)) (1/4) = 11 := by
    rw [hmap]
    rw [quantile_eval _ (1/4) 3 3 11 11 (by decide) (by norm_num)
      (by norm_num) rfl rfl]
    norm_num
  have hq3 : quantile (l13.map (fun r => r.rtt)) (3/4) = 11 := by
    rw [hmap]
    rw [quantile_eval _ (3/4) 9 9 11 41 (by decide) (by norm_num)
      (by norm_num) rfl rfl]
    norm_num
  have hlb : iqr_lower (l13.map (fun r => r.rtt)) = 11 := by
    rw [iqr_lower, hq1, hq3]; norm_num
  have hub : iqr_upper (l13.map (fun r => r.rtt)) = 11 := by
    rw [iqr_upper, hq1, hq3]; norm_num
  rw [remove_outliers, hlb, hub]
  norm_num [hl13, List.filter]

/-- C7 counterexample: on a 14-sample series (count above the threshold,
and still above it after one pass) `remove_outliers` is not idempotent —
the first pass removes only the extreme value 10001, and the second pass,
with the quartiles recomputed on the filtered data (IQR collapses to 0),
removes six further rows. -/
theorem remove_outliers_idempotence_counterexample :
    10 < c7df.length ∧ 10 < (remove_outliers c7df).length ∧
    remove_outliers (remove_outliers c7df) ≠ remove_outliers c7df := by
  refine ⟨by norm_num [c7df], ?_, ?_⟩
  · rw [c7_pass1]
    norm_num
  · rw [c7_pass1, c7_pass2]
    intro heq
    have hlen := congrArg List.length heq
    simp at hlen

/-- C7 (amended): a second application of `remove_outliers` never adds,
modifies or reorders rows — its output is a sublist of the first output —
and it is the identity whenever the first application removed nothing; but
it can strictly remove further rows even when the sample count stays above
the 10-sample threshold, so full idempotence does not hold. -/
theorem remove_outliers_second_pass_sublist (df : List CsvRow) :
    (remove_outliers (remove_outliers df)).Sublist (remove_outliers df) ∧
    (remove_outliers df = df → remove_outliers (remove_outliers df) = df) := by
  refine ⟨List.filter_sublist _, ?_⟩
  intro h
  rw [h]
  exact h

theorem singleton_remove_outliers_fixpoint :
    remove_outliers [(⟨64, 1, 5⟩ : CsvRow)] = [⟨64, 1, 5⟩] := by
  have hq1 : quantile ([(⟨64, 1, 5⟩ : CsvRow)].map (fun r => r.rtt)) (1/4)
      = 5 := by
    rw [show ([(⟨64, 1, 5⟩ : CsvRow)].map (fun r => r.rtt)) = [5] from rfl]
    rw [quantile_eval_last _ (1/4) 0 0 5 (by decide) (by norm_num)
      (by norm_num) rfl rfl]
  have hq3 : quantile ([(⟨64, 1, 5⟩ : CsvRow)].map (fun r => r.rtt)) (3/4)
      = 5 := by
    rw [show ([(⟨64, 1, 5⟩ : CsvRow)].map (fun r => r.rtt)) = [5] from rfl]
    rw [quantile_eval_last _ (3/4) 0 0 5 (by decide) (by norm_num)
      (by norm_num) rfl rfl]
  have hlb : iqr_lower ([(⟨64, 1, 5⟩ : CsvRow)].map (fun r => r.rtt)) = 5 := by
    rw [iqr_lower, hq1, hq3]; norm_num
  have hub : iqr_upper ([(⟨64, 1, 5⟩ : CsvRow)].map (fun r => r.rtt)) = 5 := by
    rw [iqr_upper, hq1, hq3]; norm_num
  rw [remove_outliers, hlb, hub]
  norm_num [List.filter]

theorem remove_outliers_second_pass_sublist_witness :
    remove_outliers (remove_outliers [(⟨64, 1, 5⟩ : CsvRow)]) = [⟨64, 1, 5⟩] :=
  (remove_outliers_second_pass_sublist [⟨64, 1, 5⟩]).2
    singleton_remove_outliers_fixpoint

/-- Helper for `df['size'].unique()`: first occurrence of each value, in
order of first appearance, skipping values already seen. -/
def uniqueAux (seen : List Nat) : List Nat → List Nat
  | [] => []
  | x :: xs =>
    if x ∈ seen then uniqueAux seen xs else x :: uniqueAux (x :: seen) xs

/-- Embeds `df['size'].unique()` in `load_csv_data`: the distinct payload
sizes in first-appearance order. -/
def unique_sizes (df : List CsvRow) : List Nat :=
  uniqueAux [] (df.map (fun r => r.size))

/-- Embeds `df = df[df['rtt_us'] > 0]` in `load_csv_data`: drop rows with
non-positive rtt. -/
def valid_rows (rows : List CsvRow) : List CsvRow :=
  rows.filter (fun r => decide (0 < r.rtt))

/-- Embeds `size_df = df[df['size'] == size]` in `load_csv_data`. -/
def size_group (df : List CsvRow) (s : Nat) : List CsvRow :=
  df.filter (fun r => r.size == s)

/-- Embeds the per-file cleaning pipeline of `load_csv_data` in
`analisar_resultados.py`: drop non-positive rtt rows, then for each distinct
size run `remove_outliers` on that size's rows when there are more than 10
of them (else pass them through), and concatenate the per-size results
(`pd.concat(df_clean_list)`). -/
def load_csv_data (rows : List CsvRow) : List CsvRow :=
  (unique_sizes (valid_rows rows)).flatMap (fun s =>
    if 10 < (size_group (valid_rows rows) s).length
    then remove_outliers (size_group (valid_rows rows) s)
    else size_group (valid_rows rows) s)

theorem mem_uniqueAux (x : Nat) :
    ∀ (l seen : List Nat), x ∈ uniqueAux seen l ↔ x ∈ l ∧ x ∉ seen := by
  intro l
  induction l with
  | nil => intro seen; simp [uniqueAux]
  | cons a l ih =>
    intro seen
    by_cases ha : a ∈ seen
    · rw [uniqueAux, if_pos ha, ih seen]
      constructor
      · rintro ⟨hxl, hxs⟩
        exact ⟨List.mem_cons_of_mem a hxl, hxs⟩
      · rintro ⟨hxal, hxs⟩
        rcases List.mem_cons.mp hxal with rfl | hxl
        · exact absurd ha hxs
        · exact ⟨hxl, hxs⟩
    · rw [uniqueAux, if_neg ha]
      rw [List.mem_cons, ih (a :: seen)]
      constructor
      · rintro (rfl | ⟨hxl, hxs⟩)
        · exact ⟨List.mem_cons_self x l, ha⟩
        · exact ⟨List.mem_cons_of_mem a hxl,
            fun hc => hxs (List.mem_cons_of_mem a hc)⟩
      · rintro ⟨hxal, hxs⟩
        rcases List.mem_cons.mp hxal with rfl | hxl
        · exact Or.inl rfl
        · by_cases hxa : x = a
          · exact Or.inl hxa
          · exact Or.inr ⟨hxl, by
              rw [List.mem_cons]
              rintro (h | h)
              exacts [hxa h, hxs h]⟩

theorem nodup_uniqueAux : ∀ (l seen : List Nat), (uniqueAux seen l).Nodup := by
  intro l
  induction l with
  | nil => intro seen; simp [uniqueAux]
  | cons a l ih =>
    intro seen
    by_cases ha : a ∈ seen
    · rw [uniqueAux, if_pos ha]
      exact ih seen
    · rw [uniqueAux, if_neg ha]
      rw [List.nodup_cons]
      refine ⟨?_, ih (a :: seen)⟩
      intro hmem
      exact ((mem_uniqueAux a l (a :: seen)).mp hmem).2 (List.mem_cons_self a seen)

theorem size_group_sizes (df : List CsvRow) (s : Nat) :
    ∀ r ∈ size_group df s, r.size = s := by
  intro r hr
  have h := (List.mem_filter.mp hr).2
  simpa using h

theorem filter_flatMap_eq_branch (branch : Nat → List CsvRow) (s : Nat)
    (hsz : ∀ t, ∀ r ∈ branch t, r.size = t) :
    ∀ (L : List Nat), L.Nodup → s ∈ L →
      (L.flatMap branch).filter (fun r => r.size == s) = branch s := by
  have hnil : ∀ (L : List Nat), s ∉ L →
      (L.flatMap branch).filter (fun r => r.size == s) = [] := by
    intro L hsL
    rw [List.filter_eq_nil_iff]
    intro r hr
    obtain ⟨t, htL, hrt⟩ := List.mem_flatMap.mp hr
    have hst : t ≠ s := fun h => hsL (h ▸ htL)
    simp [hsz t r hrt, hst]
  intro L
  induction L with
  | nil => intro _ h; cases h
  | cons a L ih =>
    intro hnd hmem
    rw [List.flatMap_cons, List.filter_append]
    by_cases has : a = s
    · subst has
      have h1 : (branch a).filter (fun r => r.size == a) = branch a :=
        List.filter_eq_self.mpr (fun r hr => by simp [hsz a r hr])
      have h2 : (L.flatMap branch).filter (fun r => r.size == a) = [] :=
        hnil L (List.nodup_cons.mp hnd).1
      rw [h1, h2, List.append_nil]
    · have h1 : (branch a).filter (fun r => r.size == s) = [] := by
        rw [List.filter_eq_nil_iff]
        intro r hr
        simp [hsz a r hr, has]
      have hmem2 : s ∈ L := by
        rcases List.mem_cons.mp hmem with h | h
        · exact absurd h.symm has
        · exact h
      rw [h1, List.nil_append]
      exact ih (List.nodup_cons.mp hnd).2 hmem2

/-- C6: for every distinct payload size of the loaded (positive-rtt) data,
the loaded result restricted to that size equals: when the size has more
than 10 rows, exactly the rows of that size whose rtt lies within
`[Q1 - 1.5*IQR, Q3 + 1.5*IQR]` (quartiles computed by linear interpolation
over that size's rtt values); otherwise that size's rows unfiltered. -/
theorem per_size_outlier_filtering (rows : List CsvRow) (s : Nat)
    (hs : s ∈ unique_sizes (valid_rows rows)) :
    (load_csv_data rows).filter (fun r => r.size == s)
      = if 10 < (size_group (valid_rows rows) s).length
        then (size_group (valid_rows rows) s).filter (fun r =>
          decide (iqr_lower ((size_group (valid_rows rows) s).map
            (fun r => r.rtt)) ≤ r.rtt) &&
          decide (r.rtt ≤ iqr_upper ((size_group (valid_rows rows) s).map
            (fun r => r.rtt))))
        else size_group (valid_rows rows) s := by
  have hsz : ∀ t, ∀ r ∈ (if 10 < (size_group (valid_rows rows) t).length
      then remove_outliers (size_group (valid_rows rows) t)
      else size_group (valid_rows rows) t), r.size = t := by
    intro t r hr
    by_cases h10 : 10 < (size_group (valid_rows rows) t).length
    · rw [if_pos h10] at hr
      exact size_group_sizes _ _ r ((List.mem_filter.mp hr).1)
    · rw [if_neg h10] at hr
      exact size_group_sizes _ _ r hr
  exact filter_flatMap_eq_branch _ s hsz (unique_sizes (valid_rows rows))
    (nodup_uniqueAux _ _) hs

/-- Concrete input for the C6 witness: two sizes, one invalid row. -/
def c6rows : List CsvRow := [⟨1, 1, 5⟩, ⟨2, 1, 7⟩, ⟨1, 2, -1⟩, ⟨1, 3, 6⟩]

theorem per_size_outlier_filtering_witness :
    (load_csv_data c6rows).filter (fun r => r.size == 1)
      = if 10 < (size_group (valid_rows c6rows) 1).length
        then (size_group (valid_rows c6rows) 1).filter (fun r =>
          decide (iqr_lower ((size_group (valid_rows c6rows) 1).map
            (fun r => r.rtt)) ≤ r.rtt) &&
          decide (r.rtt ≤ iqr_upper ((size_group (valid_rows c6rows) 1).map
            (fun r => r.rtt))))
        else size_group (valid_rows c6rows) 1 :=
  per_size_outlier_filtering c6rows 1 (by decide)

/-- Embeds the per-size anomaly test in `generate_report`
(`analisar_resultados.py`): when a size has more than 10 samples, flag it
iff the share of values strictly outside the IQR bounds recomputed on the
given (already-loaded) data exceeds 5 percent. -/
def size_warned (xs : List ℚ) : Bool :=
  if 10 < xs.length then
    decide ((5 : ℚ) <
      (((xs.filter (fun v => decide (v < iqr_lower xs)
          || decide (iqr_upper xs < v))).length : ℚ)
        / (xs.length : ℚ)) * 100)
  else false

/-- Embeds the anomaly section of `generate_report`: combine all clients'
loaded data, and return the sizes (in first-appearance order) for which an
outlier warning line is written. -/
def generate_report_warnings (data : List (String × List CsvRow)) : List Nat :=
  (unique_sizes (data.flatMap (fun c => c.2))).filter (fun s =>
    size_warned (((data.flatMap (fun c => c.2)).filter
      (fun r => r.size == s)).map (fun r => r.rtt)))

theorem size_warned_iff (xs : List ℚ) :
    size_warned xs = true ↔
      10 < xs.length ∧
      (5 : ℚ) < (((xs.filter (fun v => decide (v < iqr_lower xs)
          || decide (iqr_upper xs < v))).length : ℚ)
        / (xs.length : ℚ)) * 100 := by
  unfold size_warned
  split_ifs with h
  · simp [h]
  · simp [h]

/-- C9 (amended): a size is flagged in the report's anomaly section iff it
occurs in the combined data handed to `generate_report` (which in the
analysis pipeline is the already outlier-filtered data), that size has more
than 10 samples there, and the share of its values strictly outside the IQR
bounds recomputed on that same data exceeds 5 percent — the percentage is
outliers detected in the given data over that size's given count, not
outliers removed during loading over the original count. -/
theorem report_warning_characterization (data : List (String × List CsvRow))
    (s : Nat) :
    s ∈ generate_report_warnings data ↔
      s ∈ unique_sizes (data.flatMap (fun c => c.2)) ∧
      10 < (((data.flatMap (fun c => c.2)).filter
        (fun r => r.size == s)).map (fun r => r.rtt)).length ∧
      (5 : ℚ) < ((((((data.flatMap (fun c => c.2)).filter
            (fun r => r.size == s)).map (fun r => r.rtt)).filter
          (fun v => decide (v < iqr_lower (((data.flatMap (fun c => c.2)).filter
              (fun r => r.size == s)).map (fun r => r.rtt)))
            || decide (iqr_upper (((data.flatMap (fun c => c.2)).filter
              (fun r => r.size == s)).map (fun r => r.rtt)) < v))).length : ℚ)
        / ((((data.flatMap (fun c => c.2)).filter
            (fun r => r.size == s)).map (fun r => r.rtt)).length : ℚ)) * 100 := by
  unfold generate_report_warnings
  rw [List.mem_filter, size_warned_iff]

/-- Raw rows for the report counterexample: one client, one size, rtt
column `[1, 2, ..., 12, 28, 1000]`. -/
def c9rows : List CsvRow :=
  [⟨64, 1, 1⟩, ⟨64, 2, 2⟩, ⟨64, 3, 3⟩, ⟨64, 4, 4⟩, ⟨64, 5, 5⟩, ⟨64, 6, 6⟩,
   ⟨64, 7, 7⟩, ⟨64, 8, 8⟩, ⟨64, 9, 9⟩, ⟨64, 10, 10⟩, ⟨64, 11, 11⟩,
   ⟨64, 12, 12⟩, ⟨64, 13, 28⟩, ⟨64, 14, 1000⟩]

/-- The rows surviving `load_csv_data c9rows`. -/
def c9loaded : List CsvRow :=
  [⟨64, 1, 1⟩, ⟨64, 2, 2⟩, ⟨64, 3, 3⟩, ⟨64, 4, 4⟩, ⟨64, 5, 5⟩, ⟨64, 6, 6⟩,
   ⟨64, 7, 7⟩, ⟨64, 8, 8⟩, ⟨64, 9, 9⟩, ⟨64, 10, 10⟩, ⟨64, 11, 11⟩,
   ⟨64, 12, 12⟩]

theorem c9_clean : remove_outliers c9rows = c9loaded := by
  have hmap : c9rows.map (fun r => r.rtt)
      = [1, 2, 3, 4, 5, 6, 7, 8, 9, 10, 11, 12, 28, 1000] := rfl
  have hq1 : quantile (c9rows.map (fun r => r.rtt)) (1/4) = 17/4 := by
    rw [hmap]
    rw [quantile_eval _ (1/4) (13/4) 3 4 5 (by decide) (by norm_num)
      (by norm_num) rfl rfl]
    norm_num
  have hq3 : quantile (c9rows.map (fun r => r.rtt)) (3/4) = 43/4 := by
    rw [hmap]
    rw [quantile_eval _ (3/4) (39/4) 9 10 11 (by decide) (by norm_num)
      (by norm_num) rfl rfl]
    norm_num
  have hlb : iqr_lower (c9rows.map (fun r => r.rtt)) = -11/2 := by
    rw [iqr_lower, hq1, hq3]; norm_num
  have hub : iqr_upper (c9rows.map (fun r => r.rtt)) = 41/2 := by
    rw [iqr_upper, hq1, hq3]; norm_num
  rw [remove_outliers, hlb, hub]
  norm_num [c9rows, c9loaded, List.filter]

theorem c9_load : load_csv_data c9rows = c9loaded := by
  have hu : unique_sizes (valid_rows c9rows) = [64] := by decide
  have hg : size_group (valid_rows c9rows) 64 = c9rows := by decide
  rw [load_csv_data, hu]
  rw [show ([64].flatMap (fun s =>
      if 10 < (size_group (valid_rows c9rows) s).length
      then remove_outliers (size_group (valid_rows c9rows) s)
      else size_group (valid_rows c9rows) s))
    = (if 10 < (size_group (valid_rows c9rows) 64).length
      then remove_outliers (size_group (valid_rows c9rows) 64)
      else size_group (valid_rows c9rows) 64) ++ [] from rfl]
  rw [List.append_nil, hg]
  rw [if_pos (by norm_num [c9rows])]
  exact c9_clean

theorem c9_report_empty :
    generate_report_warnings [("client1", c9loaded)] = [] := by
  have hcomb : ([(("client1" : String), c9loaded)].flatMap (fun c => c.2))
      = c9loaded := by
    simp
  have hxs : ((c9loaded.filter (fun r => r.size == 64)).map (fun r => r.rtt))
      = [1, 2, 3, 4, 5, 6, 7, 8, 9, 10, 11, 12] := by decide
  have hq1 : quantile
      ((c9loaded.filter (fun r => r.size == 64)).map (fun r => r.rtt)) (1/4)
      = 15/4 := by
    rw [hxs]
    rw [quantile_eval _ (1/4) (11/4) 2 3 4 (by decide) (by norm_num)
      (by norm_num) rfl rfl]
    norm_num
  have hq3 : quantile
      ((c9loaded.filter (fun r => r.size == 64)).map (fun r => r.rtt)) (3/4)
      = 37/4 := by
    rw [hxs]
    rw [quantile_eval _ (3/4) (33/4) 8 9 10 (by decide) (by norm_num)
      (by norm_num) rfl rfl]
    norm_num
  have hlb : iqr_lower
      ((c9loaded.filter (fun r => r.size == 64)).map (fun r => r.rtt))
      = -9/2 := by
    rw [iqr_lower, hq1, hq3]; norm_num
  have hub : iqr_upper
      ((c9loaded.filter (fun r => r.size == 64)).map (fun r => r.rtt))
      = 35/2 := by
    rw [iqr_upper, hq1, hq3]; norm_num
  have hwarn : size_warned
      ((c9loaded.filter (fun r => r.size == 64)).map (fun r => r.rtt))
      = false := by
    rw [size_warned, if_pos (by rw [hxs]; norm_num)]
    rw [hlb, hub, hxs]
    norm_num [List.filter]
  have hp : size_warned ((([(("client1" : String), c9loaded)].flatMap
      (fun c => c.2)).filter (fun r => r.size == 64)).map (fun r => r.rtt))
      = false := by
    rw [hcomb]
    exact hwarn
  rw [generate_report_warnings]
  have hu : unique_sizes ([(("client1" : String), c9loaded)].flatMap
      (fun c => c.2)) = [64] := by decide
  rw [hu]
  rw [List.filter_cons_of_neg (by rw [hp]; exact Bool.false_ne_true)]
  rfl

/-- C9 counterexample: for one client whose raw series is
`[1..12, 28, 1000]` (size 64), loading removes 2 of 14 rows — the
removed/original percentage is about 14.3 percent, above the 5 percent
threshold, so the claim demands a warning — yet the report, which recomputes
outliers on the already-filtered data it receives, finds 0 percent outliers
there and writes no warning. -/
theorem report_warning_counterexample :
    c9rows.length = 14 ∧
    (load_csv_data c9rows).length = 12 ∧
    (5 : ℚ) < ((c9rows.length : ℚ) - ((load_csv_data c9rows).length : ℚ))
        / (c9rows.length : ℚ) * 100 ∧
    generate_report_warnings [("client1", load_csv_data c9rows)] = [] := by
  refine ⟨rfl, ?_, ?_, ?_⟩
  · rw [c9_load]
    rfl
  · rw [c9_load]
    norm_num [c9rows, c9loaded]
  · rw [c9_load]
    exact c9_report_empty

/-- A client configuration dict built by `create_client_configs` in
`RRT/multi_cliente.py`. -/
structure ClientConfig where
  client_id : String
  domain_id : Nat
  timeout_ms : Nat
deriving DecidableEq

/-- What the body of `run_single_client`'s `try:` block does for one
client: either the construction, `run_measurements` and `cleanup` all
complete normally (yielding the client's csv filename, with the measured
`execution_time`), or some step raises an exception whose string form is
`msg`. -/
inductive RunOutcome where
  | ok (csv_file : String) (execution_time : ℚ)
  | exn (msg : String) (execution_time : ℚ)
deriving DecidableEq

/-- The result dict built by `run_single_client`. -/
structure ClientRunResult where
  client_id : String
  status : String
  execution_time : ℚ
  csv_file : Option String
  error : Option String
deriving DecidableEq

/-- Embeds `run_single_client` of `RRT/multi_cliente.py`: the `try` block
either completes — `status='success'`, the csv filename recorded, no
error — or any raised exception is caught by the `except` and turned into
`status='error'` with the exception text; nothing propagates. -/
def run_single_client (cfg : ClientConfig) (outcome : RunOutcome) :
    ClientRunResult :=
  match outcome with
  | RunOutcome.ok csv t =>
    { client_id := cfg.client_id, status := "success", execution_time := t,
      csv_file := some csv, error := none }
  | RunOutcome.exn msg t =>
    { client_id := cfg.client_id, status := "error", execution_time := t,
      csv_file := none, error := some msg }

/-- Embeds the `client_{i+1:03d}` format of `create_client_configs`
(zero-padded to width 3). -/
def format_client_id (n : Nat) : String :=
  if n < 10 then "client_00" ++ toString n
  else if n < 100 then "client_0" ++ toString n
  else "client_" ++ toString n

/-- Embeds `create_client_configs`: one config per client index
`0 ≤ i < num_clients`, with id `client_{i+1:03d}`. -/
def create_client_configs (num_clients domain_id timeout_ms : Nat) :
    List ClientConfig :=
  (List.range num_clients).map (fun i =>
    { client_id := format_client_id (i + 1), domain_id := domain_id,
      timeout_ms := timeout_ms })

/-- Embeds `run_concurrent_clients` of `RRT/multi_cliente.py`: every config
is submitted to the pool, and results are collected in the order
`as_completed` yields the futures — `order` lists the task indices in
completion order (a permutation of `0..num_clients-1`, since `as_completed`
yields each submitted future exactly once). `outcomes i` is what client
`i`'s `run_single_client` body did. -/
def run_concurrent_clients (num_clients domain_id timeout_ms : Nat)
    (outcomes : Nat → RunOutcome) (order : List Nat) : List ClientRunResult :=
  order.filterMap (fun i =>
    ((create_client_configs num_clients domain_id timeout_ms)[i]?).map
      (fun cfg => run_single_client cfg (outcomes i)))

theorem create_client_configs_getElem (num_clients domain_id timeout_ms i : Nat)
    (hi : i < num_clients) :
    (create_client_configs num_clients domain_id timeout_ms)[i]?
      = some { client_id := format_client_id (i + 1), domain_id := domain_id,
               timeout_ms := timeout_ms } := by
  unfold create_client_configs
  rw [List.getElem?_map, List.getElem?_range hi]
  rfl

theorem run_concurrent_eq_map (num_clients domain_id timeout_ms : Nat)
    (outcomes : Nat → RunOutcome) (order : List Nat)
    (h : ∀ i ∈ order, i < num_clients) :
    run_concurrent_clients num_clients domain_id timeout_ms outcomes order
      = order.map (fun i => run_single_client
          { client_id := format_client_id (i + 1), domain_id := domain_id,
            timeout_ms := timeout_ms } (outcomes i)) := by
  induction order with
  | nil => rfl
  | cons a order ih =>
    have ha : a < num_clients := h a (List.mem_cons_self a order)
    rw [run_concurrent_clients, List.filterMap_cons, List.map_cons]
    rw [create_client_configs_getElem num_clients domain_id timeout_ms a ha]
    rw [Option.map_some']
    rw [← ih (fun i hi => h i (List.mem_cons_of_mem a hi))]
    rfl

/-- C8: with `order` any completion order of the submitted tasks (a
permutation of the client indices), `run_concurrent_clients` returns
exactly `num_clients` results; every client index has a result carrying its
own `client_{i+1:03d}` id, and that result is an error-status record with
the client's own exception text when its body raised, and a success-status
record with its csv file when its body completed — one client's failure
never prevents or changes any other client's result. -/
theorem fleet_isolation (num_clients domain_id timeout_ms : Nat)
    (outcomes : Nat → RunOutcome) (order : List Nat)
    (horder : order.Perm (List.range num_clients)) :
    (run_concurrent_clients num_clients domain_id timeout_ms outcomes
        order).length = num_clients ∧
    ∀ i, i < num_clients →
      ∃ r ∈ run_concurrent_clients num_clients domain_id timeout_ms outcomes
          order,
        r.client_id = format_client_id (i + 1) ∧
        ((∃ msg t, outcomes i = RunOutcome.exn msg t ∧ r.status = "error" ∧
            r.error = some msg ∧ r.csv_file = none) ∨
         (∃ csv t, outcomes i = RunOutcome.ok csv t ∧ r.status = "success" ∧
            r.error = none ∧ r.csv_file = some csv)) := by
  have hbound : ∀ i ∈ order, i < num_clients := by
    intro i hi
    exact List.mem_range.mp (horder.mem_iff.mp hi)
  rw [run_concurrent_eq_map num_clients domain_id timeout_ms outcomes order
    hbound]
  constructor
  · rw [List.length_map, horder.length_eq, List.length_range]
  · intro i hi
    have hmem : i ∈ order := horder.mem_iff.mpr (List.mem_range.mpr hi)
    refine ⟨run_single_client
      { client_id := format_client_id (i + 1), domain_id := domain_id,
        timeout_ms := timeout_ms } (outcomes i),
      List.mem_map_of_mem _ hmem, ?_, ?_⟩
    · cases houtcome : outcomes i with
      | ok csv t => rw [run_single_client]
      | exn msg t => rw [run_single_client]
    · cases houtcome : outcomes i with
      | ok csv t =>
        refine Or.inr ⟨csv, t, rfl, ?_⟩
        rw [run_single_client]
        exact ⟨rfl, rfl, rfl⟩
      | exn msg t =>
        refine Or.inl ⟨msg, t, rfl, ?_⟩
        rw [run_single_client]
        exact ⟨rfl, rfl, rfl⟩

theorem fleet_isolation_witness :
    (run_concurrent_clients 3 0 5000
        (fun i => if i = 1 then RunOutcome.exn "boom" 0
                  else RunOutcome.ok "rtt.csv" 2) [2, 0, 1]).length = 3 ∧
    ∃ r ∈ run_concurrent_clients 3 0 5000
        (fun i => if i = 1 then RunOutcome.exn "boom" 0
                  else RunOutcome.ok "rtt.csv" 2) [2, 0, 1],
      r.client_id = format_client_id 2 ∧ r.status = "error" ∧
        r.error = some "boom" := by
  have h := fleet_isolation 3 0 5000
    (fun i => if i = 1 then RunOutcome.exn "boom" 0
              else RunOutcome.ok "rtt.csv" 2) [2, 0, 1] (by decide)
  refine ⟨h.1, ?_⟩
  obtain ⟨r, hrmem, hrid, hr⟩ := h.2 1 (by omega)
  rcases hr with ⟨msg, t, hout, hst, herr, -⟩ | ⟨csv, t, hout, -⟩
  · have hmsg : msg = "boom" := by
      have hh : "boom" = msg ∧ (0 : ℚ) = t := by simpa using hout
      exact hh.1.symm
    exact ⟨r, hrmem, hrid, hst, by rw [herr, hmsg]⟩
  · exact absurd hout (by simp)

end RTTSpec
